import Mathlib

/-!
Verification development for the file-inspection/export utility (src/app.py).

Modelling conventions (shallow embedding):
* Text is `List Char`; files are ASCII, one byte per character, so the byte
  view of a file equals its character view and `str`/`bytes` prefixes agree.
* Contents use `'\n'` as the only line-break character (the exotic Python
  `str.splitlines` boundaries `'\x0b'`, `'\x0c'`, `'\r'`, … do not occur in
  modelled contents; they may still occur inside a line, where they count as
  whitespace exactly as in Python).
* `textwrap.wrap(line, width=120, break_long_words=False)` is embedded with
  the simple word-separation rule (maximal runs of whitespace / non-whitespace).
  The default `break_on_hyphens=True` differs only on chunks containing
  hyphens between word characters; no concrete input in this file contains a
  hyphen, and the universally quantified theorems proved about wrapping
  (preservation of non-whitespace characters) are insensitive to how chunks
  are cut, only to the fact that dropped chunks are pure whitespace.
* Modification timestamps are modelled as natural numbers (`st_mtime` floats
  carry no load in any claim); file sizes are byte counts.
* I/O failure is modelled by a `readable` flag on file data; an unreadable
  file behaves as `open`/`read` raising in Python.
-/

set_option maxRecDepth 40000

/-- Python whitespace test for the ASCII range (`str.strip`, `\s`,
`textwrap`'s `_whitespace = '\t\n\x0b\x0c\r '`). -/
def pyIsSpace (c : Char) : Bool :=
  c = ' ' || c = '\t' || c = '\n' || c = '\x0b' || c = '\x0c' || c = '\r'

/-- Characters kept by the "visible content" projection: non-whitespace. -/
def keepCh (c : Char) : Bool := !(pyIsSpace c)

/-- The non-whitespace characters of a text, in order. -/
def visible (s : List Char) : List Char := s.filter keepCh

/-- Embeds `str.splitlines` worker: `acc` holds the current line reversed. -/
def splitlinesGo : List Char → List Char → List (List Char)
  | [], acc => if acc.isEmpty then [] else [acc.reverse]
  | c :: rest, acc =>
    if c = '\n' then acc.reverse :: splitlinesGo rest []
    else splitlinesGo rest (c :: acc)

/-- Embeds `str.splitlines` for texts whose line breaks are `'\n'` (a trailing
newline produces no final empty line, as in Python). -/
def splitlines (s : List Char) : List (List Char) := splitlinesGo s []

/-- Embeds `str.expandtabs(tabsize)`: replace each tab by spaces up to the next
multiple of `tabsize`, tracking the column, which resets after `'\n'`/`'\r'`. -/
def expandtabsGo (tabsize : Nat) : List Char → Nat → List Char
  | [], _ => []
  | c :: rest, col =>
    if c = '\t' then
      if tabsize = 0 then expandtabsGo tabsize rest col
      else
        let pad := tabsize - col % tabsize
        List.replicate pad ' ' ++ expandtabsGo tabsize rest (col + pad)
    else if c = '\n' || c = '\r' then c :: expandtabsGo tabsize rest 0
    else c :: expandtabsGo tabsize rest (col + 1)

/-- Embeds `TextWrapper._munge_whitespace`: `expand_tabs` (tabsize 8) then
`replace_whitespace` (each of `'\t\n\x0b\x0c\r '` maps to `' '`). -/
def munge (s : List Char) : List Char :=
  (expandtabsGo 8 s 0).map (fun c => if pyIsSpace c then ' ' else c)

/-- One step of splitting a text into maximal runs of whitespace /
non-whitespace characters (`TextWrapper._split`'s chunking, simple rule). -/
def chunkStep (c : Char) (chunks : List (List Char)) : List (List Char) :=
  match chunks with
  | [] => [[c]]
  | [] :: rest => [c] :: rest
  | (d :: run) :: rest =>
    if pyIsSpace c = pyIsSpace d then (c :: d :: run) :: rest
    else [c] :: (d :: run) :: rest

/-- Split a line into its alternating whitespace / word chunks. -/
def toChunks (s : List Char) : List (List Char) := s.foldr chunkStep []

/-- A chunk that `str.strip`s to the empty string (pure whitespace). -/
def isWsChunk (l : List Char) : Bool := l.all pyIsSpace

/-- The greedy inner loop of `TextWrapper._wrap_chunks`: take chunks while
the accumulated length stays within `w`. Returns (taken, remaining). -/
def takeGreedy (w : Nat) (acc : Nat) : List (List Char) → (List (List Char) × List (List Char))
  | [] => ([], [])
  | c :: rest =>
    if acc + c.length ≤ w then
      let pr := takeGreedy w (acc + c.length) rest
      (c :: pr.1, pr.2)
    else ([], c :: rest)

/-- Embeds `_handle_long_word` with `break_long_words=False`: a chunk longer than
the width goes onto a line of its own, but only when the current line is
empty; otherwise it is left for the next iteration. -/
def handleLong (w : Nat) (pr : List (List Char) × List (List Char)) :
    List (List Char) × List (List Char) :=
  match pr.2 with
  | [] => pr
  | r :: rs => if w < r.length && pr.1.isEmpty then ([r], rs) else pr

/-- Embeds `drop_whitespace` at the end of the current line. -/
def dropTrailWs (cur : List (List Char)) : List (List Char) :=
  match cur.getLast? with
  | some last => if isWsChunk last then cur.dropLast else cur
  | none => cur

/-- Embeds `TextWrapper._wrap_chunks` with `width = w`, no indents,
`drop_whitespace=True`, `break_long_words=False`, `max_lines=None`.
`linesEmpty` tracks whether no output line has been emitted yet (Python's
`lines` list being empty, which suppresses the leading-whitespace drop).
The fuel argument bounds the iteration count; each iteration consumes at
least one chunk, so fuel `chunks.length` suffices. -/
def wrapGo (w : Nat) : Nat → Bool → List (List Char) → List (List Char)
  | _, _, [] => []
  | 0, _, _ :: _ => []
  | n + 1, linesEmpty, c0 :: cs0 =>
    -- drop_whitespace at start of line, but not before the first line
    let chunks1 := if !linesEmpty && isWsChunk c0 then cs0 else c0 :: cs0
    let pr2 := handleLong w (takeGreedy w 0 chunks1)
    let cur2 := dropTrailWs pr2.1
    let rest := wrapGo w n (linesEmpty && cur2.isEmpty) pr2.2
    if cur2.isEmpty then rest else cur2.flatten :: rest

/-- Embeds `textwrap.wrap(line, width=120, break_long_words=False)`. -/
def wrapLine (line : List Char) : List (List Char) :=
  let cs := toChunks (munge line)
  wrapGo 120 cs.length true cs

/-- One iteration of `_wrap_chunks` after the leading-whitespace drop,
written without `let`s (definitionally the body of `wrapGo`); used to
reason about the loop one step at a time. -/
def wrapStep (w n : Nat) (b : Bool) (chunks1 : List (List Char)) : List (List Char) :=
  if (dropTrailWs (handleLong w (takeGreedy w 0 chunks1)).1).isEmpty then
    wrapGo w n (b && (dropTrailWs (handleLong w (takeGreedy w 0 chunks1)).1).isEmpty)
      (handleLong w (takeGreedy w 0 chunks1)).2
  else
    (dropTrailWs (handleLong w (takeGreedy w 0 chunks1)).1).flatten ::
    wrapGo w n (b && (dropTrailWs (handleLong w (takeGreedy w 0 chunks1)).1).isEmpty)
      (handleLong w (takeGreedy w 0 chunks1)).2

/-- Join lines with `'\n'` (`"\n".join`). -/
def joinNL : List (List Char) → List Char
  | [] => []
  | [l] => l
  | l :: ls => l ++ '\n' :: joinNL ls

/-- The content normalization of `read_and_clean` (src/app.py lines 101-107):
split into lines, re-wrap each line longer than 120 characters, rejoin. -/
def normalizeContent (text : List Char) : List Char :=
  joinNL ((splitlines text).flatMap
    (fun line => if 120 < line.length then wrapLine line else [line]))

/-- Identify newline with space: the reading of "the same logical text with
only newline positions changed" (wrapping turns inter-word whitespace into
line breaks, so unwrapping maps each newline back to a space). -/
def unwrapNl (s : List Char) : List Char :=
  s.map (fun c => if c = '\n' then ' ' else c)

/-- Decimal digit character. -/
def digitChar (d : Nat) : Char := Char.ofNat (48 + d)

/-- Worker for `str(n)`: prepend the decimal digits of `n` to `acc`. -/
def natToCharsGo (n : Nat) (acc : List Char) : List Char :=
  if h : n < 10 then digitChar n :: acc
  else natToCharsGo (n / 10) (digitChar (n % 10) :: acc)
termination_by n
decreasing_by
  exact Nat.div_lt_self (Nat.lt_of_lt_of_le (by decide) (Nat.le_of_not_lt h)) (by decide)

/-- Embeds `str(n)` for a natural number. -/
def natToChars (n : Nat) : List Char := natToCharsGo n []

/-- Round `10 * n / d` to the nearest integer, ties to even: the exact value
of Python's `"%.1f"`-style formatting of `n / d` in tenths, valid because
`d` is a power of two so `n / d` is an exact binary float. -/
def roundTenths (n d : Nat) : Nat :=
  let q := 10 * n / d
  let r := 10 * n % d
  if 2 * r < d then q
  else if d < 2 * r then q + 1
  else if q % 2 = 0 then q else q + 1

/-- Format `n / d` with one decimal digit (the format spec 3.1f of the
source; its minimum width 3 never pads since x.y is at least three
characters). -/
def fmt1f (n d : Nat) : List Char :=
  let t := roundTenths n d
  natToChars (t / 10) ++ '.' :: [digitChar (t % 10)]

/-- Embeds `human_readable_size` (src/app.py lines 43-48), on exact rationals
`n / 1024^k` (sizes below `2^53` make every intermediate float exact). -/
def hrGo : List (List Char) → Nat → Nat → List Char
  | [], n, d => fmt1f n d ++ 'Y' :: "B".data
  | u :: us, n, d => if n < 1024 * d then fmt1f n d ++ u ++ "B".data else hrGo us n (1024 * d)

def human_readable_size (num : Nat) : List Char :=
  hrGo ["".data, "K".data, "M".data, "G".data, "T".data, "P".data, "E".data, "Z".data] num 1

/-- The observable state of one on-disk file: its (ASCII) character
content and whether reads succeed (`readable = false` models `open`/`read`
raising an `OSError`). -/
structure FileData where
  content : List Char
  readable : Bool
  mtime : Nat
deriving DecidableEq

/-- Embeds `Path.open('rb')` + `f.read(n)`: the first `n` bytes, or `none` when
the read raises. -/
def fRead (f : FileData) (n : Nat) : Option (List Char) :=
  if f.readable then some (f.content.take n) else none

/-- Embeds `is_text_file` (src/app.py lines 50-57): sample the first `blocksize`
bytes; a null byte or a failed read means "not text". -/
def is_text_file (f : FileData) (blocksize : Nat := 1024) : Bool :=
  match fRead f blocksize with
  | none => false
  | some bs => !(bs.contains '\x00')

/-- A directory tree on disk. Directory nodes carry the `st_size` the
filesystem reports for the directory inode and their `st_mtime`. -/
inductive FS where
  | file (name : List Char) (fd : FileData)
  | dir (name : List Char) (mtime : Nat) (dsize : Nat) (children : List FS)

/-- The `name` of the object a path resolves to. -/
def FS.fname : FS → List Char
  | .file n _ => n
  | .dir n _ _ _ => n

/-- Embeds `st_mtime` of the root object. -/
def FS.fmtime : FS → Nat
  | .file _ fd => fd.mtime
  | .dir _ m _ _ => m

def FS.isDirFS : FS → Bool
  | .file _ _ => false
  | .dir _ _ _ _ => true

/-- One node of the directory-tree snapshot (the dict built per entry in
`build_tree`). -/
structure Entry where
  path : List Char
  is_dir : Bool
  name : List Char
  size : Nat
  hr_size : List Char
  modified : Nat
deriving DecidableEq

/-- Embeds `str(p.relative_to(root))` for a child named `n` under relative prefix
`pfx` (empty prefix at the top level). -/
def joinPath (pfx n : List Char) : List Char :=
  if pfx.isEmpty then n else pfx ++ '/' :: n

mutual
/-- The `Entry` rows `root.rglob('*')` contributes for one node and its
descendants, in depth-first order (the spec leaves traversal order to the
underlying walk; exporters must not rely on it, and no claim does). -/
def walkNode (pfx : List Char) : FS → List Entry
  | .file n fd =>
    [{ path := joinPath pfx n, is_dir := false, name := n, size := fd.content.length,
       hr_size := human_readable_size fd.content.length, modified := fd.mtime }]
  | .dir n m ds cs =>
    { path := joinPath pfx n, is_dir := true, name := n, size := ds,
      hr_size := human_readable_size ds, modified := m } :: walkNodes (joinPath pfx n) cs

def walkNodes (pfx : List Char) : List FS → List Entry
  | [] => []
  | c :: cs => walkNode pfx c ++ walkNodes pfx cs
end

/-- Embeds `build_tree` (src/app.py lines 59-90): the root always yields the
entry with path `"."`, `is_dir` true and size `0`; every other filesystem
object under the root yields one entry with its relative path. Per-entry
stat errors are out of the modelled scope (the filesystem model is
error-free for metadata, matching the claims' happy-path reading). -/
def rootEntry (root : FS) : Entry :=
  { path := ['.'], is_dir := true,
    name := if root.fname.isEmpty then "root_directory".data else root.fname,
    size := 0, hr_size := human_readable_size 0, modified := root.fmtime }

def build_tree (root : FS) : List Entry :=
  rootEntry root ::
  (match root with
   | .file _ _ => []
   | .dir _ _ _ cs => walkNodes [] cs)

mutual
/-- The regular files under one node, as (relative path, data) pairs —
`[p for p in root.rglob('*') if p.is_file()]`. -/
def filesOfNode (pfx : List Char) : FS → List (List Char × FileData)
  | .file n fd => [(joinPath pfx n, fd)]
  | .dir n _ _ cs => filesOfNodes (joinPath pfx n) cs

def filesOfNodes (pfx : List Char) : List FS → List (List Char × FileData)
  | [] => []
  | c :: cs => filesOfNode pfx c ++ filesOfNodes pfx cs
end

/-- All regular files under the root, relative paths included. -/
def allFiles : FS → List (List Char × FileData)
  | .file _ _ => []
  | .dir _ _ _ cs => filesOfNodes [] cs

/-- Embeds `_SYNTAX_MAP` (src/app.py lines 31-41). -/
def SYNTAX_MAP : List (List Char × List Char) :=
  [(".py".data, "python".data), (".js".data, "javascript".data), (".mjs".data, "javascript".data),
   (".html".data, "html".data), (".css".data, "css".data), (".json".data, "json".data),
   (".yml".data, "yaml".data), (".yaml".data, "yaml".data), (".md".data, "markdown".data),
   (".sh".data, "bash".data), (".java".data, "java".data), (".c".data, "c".data),
   (".cpp".data, "cpp".data), (".h".data, "cpp".data), (".cs".data, "csharp".data),
   (".php".data, "php".data), (".rb".data, "ruby".data), (".go".data, "go".data),
   (".rs".data, "rust".data), (".swift".data, "swift".data), (".kt".data, "kotlin".data),
   (".ts".data, "typescript".data), (".sql".data, "sql".data), (".xml".data, "xml".data),
   (".svg".data, "xml".data), (".ini".data, "ini".data), (".cfg".data, "ini".data),
   (".toml".data, "toml".data), (".lock".data, "json".data)]

/-- Embeds `dict.get(k, default)` over an association list. -/
def assocGetD (m : List (List Char × List Char)) (k dflt : List Char) : List Char :=
  match m.find? (fun kv => kv.1 == k) with
  | some kv => kv.2
  | none => dflt

/-- The final path component (text after the last `'/'`). -/
def lastComponent (p : List Char) : List Char :=
  ((p.reverse.takeWhile (fun c => c ≠ '/'))).reverse

/-- Embeds `Path.suffix`: `name[i:]` for `i = name.rfind('.')` when
`0 < i < len(name) - 1`, else empty (no dot, leading dot, trailing dot). -/
def pathSuffix (p : List Char) : List Char :=
  let nm := lastComponent p
  if nm.contains '.' then
    let i := nm.length - 1 - nm.reverse.indexOf '.'
    if 0 < i ∧ i < nm.length - 1 then nm.drop i else []
  else []

/-- ASCII `str.lower`. -/
def lowerChars (s : List Char) : List Char := s.map Char.toLower

/-- The syntax label of a path: `_SYNTAX_MAP.get(p.suffix.lower(), '')`. -/
def syntaxOf (p : List Char) : List Char := assocGetD SYNTAX_MAP (lowerChars (pathSuffix p)) []

/-- One extracted text file (the dict appended in `build_files`); `syn` is
the syntax label (`syntax` in the source, renamed for Lean). -/
structure FileRecord where
  path : List Char
  content : List Char
  syn : List Char
deriving DecidableEq

/-- Embeds `read_and_clean` (src/app.py lines 96-109): `none` for non-text files,
the normalized text for readable text files, an inline error string when
`read_text` raises (unreachable here because a file whose classifier read
succeeded is modelled readable throughout). -/
def read_and_clean (p : List Char) (fd : FileData) : Option (List Char) :=
  if !is_text_file fd then none
  else if fd.readable then some (normalizeContent fd.content)
  else some ("Error reading ".data ++ p ++ ": read failed".data)

/-- Embeds `build_files` (src/app.py lines 92-123). The worker pool returns
results in completion order, which the spec leaves unspecified; the model
collects them in enumeration order. -/
def build_files (root : FS) : List FileRecord :=
  (allFiles root).filterMap (fun pf =>
    (read_and_clean pf.1 pf.2).map (fun content =>
      { path := pf.1, content := content, syn := syntaxOf pf.1 }))

/-- The record `build_files` produces for a text file. -/
def mkRecord (pf : List Char × FileData) : FileRecord :=
  { path := pf.1, content := normalizeContent pf.2.content, syn := syntaxOf pf.1 }

/-- The plain data values JSON/YAML serialize and decode (str / int / bool
/ list / mapping); enough for everything this app exports. -/
inductive Data where
  | str (s : List Char)
  | int (n : Nat)
  | bool (b : Bool)
  | list (items : List Data)
  | dict (kvs : List (List Char × Data))

/-- The dict serialized for one tree entry. -/
def entryData (e : Entry) : Data :=
  .dict [("path".data, .str e.path), ("is_dir".data, .bool e.is_dir),
         ("name".data, .str e.name), ("size".data, .int e.size),
         ("hr_size".data, .str e.hr_size), ("modified".data, .int e.modified)]

/-- The dict serialized for one file record. -/
def fileRecData (f : FileRecord) : Data :=
  .dict [("path".data, .str f.path), ("content".data, .str f.content),
         ("syntax".data, .str f.syn)]

/-- The object `export_json` passes to `json.dumps` (src/app.py lines
139-149); a faithful JSON decoder recovers exactly this value. -/
def exportJsonData (tree : List Entry) (files : List FileRecord) : Data :=
  .dict [("metadata".data, .dict [("directory".data, .dict [
            ("name".data, .str (match tree with | [] => [] | e :: _ => e.name)),
            ("file_count".data, .int files.length),
            ("directory_count".data, .int (tree.countP (fun t => t.is_dir)))])]),
         ("structure".data, .list (tree.map entryData)),
         ("files".data, .list (files.map fileRecData))]

/-- The object `export_yaml` passes to `yaml.dump` (src/app.py lines
168-178); a faithful YAML decoder recovers exactly this value. -/
def exportYamlData (tree : List Entry) (files : List FileRecord) : Data :=
  .dict [("metadata".data, .dict [("directory".data, .dict [
            ("name".data, .str (match tree with | [] => [] | e :: _ => e.name)),
            ("file_count".data, .int files.length),
            ("directory_count".data, .int (tree.countP (fun t => t.is_dir)))])]),
         ("structure".data, .list (tree.map entryData)),
         ("files".data, .list (files.map fileRecData))]

/-- Lowercase hex digit. -/
def hexDigit (n : Nat) : Char := if n < 10 then digitChar n else Char.ofNat (87 + n)

def hex4 (n : Nat) : List Char :=
  [hexDigit (n / 4096 % 16), hexDigit (n / 256 % 16), hexDigit (n / 16 % 16), hexDigit (n % 16)]

/-- Embeds `json.dumps` string escaping with `ensure_ascii=True` (codepoints below
0x10000; astral characters, which need surrogate pairs, are out of the
modelled ASCII scope). -/
def jsonEscapeChar (c : Char) : List Char :=
  if c = '"' then ['\\', '"']
  else if c = '\\' then ['\\', '\\']
  else if c = '\n' then ['\\', 'n']
  else if c = '\t' then ['\\', 't']
  else if c = '\r' then ['\\', 'r']
  else if c = '\x08' then ['\\', 'b']
  else if c = '\x0c' then ['\\', 'f']
  else if c.toNat < 32 || 127 ≤ c.toNat then '\\' :: 'u' :: hex4 c.toNat
  else [c]

def jsonStr (s : List Char) : List Char := '"' :: s.flatMap jsonEscapeChar ++ ['"']

mutual
/-- Embeds `json.dumps(v)` with the default separators `', '` and `': '`. -/
def dumpsC : Data → List Char
  | .str s => jsonStr s
  | .int n => natToChars n
  | .bool b => if b then "true".data else "false".data
  | .list [] => "[]".data
  | .list (x :: xs) => '[' :: dumpsCItems (x :: xs) ++ [']']
  | .dict [] => "\x7b\x7d".data
  | .dict (kv :: kvs) => '\x7b' :: dumpsCKvs (kv :: kvs) ++ ['\x7d']

def dumpsCItems : List Data → List Char
  | [] => []
  | [x] => dumpsC x
  | x :: y :: xs => dumpsC x ++ ", ".data ++ dumpsCItems (y :: xs)

def dumpsCKvs : List (List Char × Data) → List Char
  | [] => []
  | [kv] => jsonStr kv.1 ++ ": ".data ++ dumpsC kv.2
  | kv :: kv2 :: rest => jsonStr kv.1 ++ ": ".data ++ dumpsC kv.2 ++ ", ".data ++ dumpsCKvs (kv2 :: rest)
end

def spacesN (n : Nat) : List Char := List.replicate n ' '

mutual
/-- Embeds `json.dumps(v, indent=2)` at surrounding indent `ind` (item separator
`','` + newline, key separator `': '`, two-space nesting). -/
def dumpsI (ind : Nat) : Data → List Char
  | .str s => jsonStr s
  | .int n => natToChars n
  | .bool b => if b then "true".data else "false".data
  | .list [] => "[]".data
  | .list (x :: xs) => '[' :: '\n' :: dumpsIItems (ind + 2) (x :: xs) ++ '\n' :: spacesN ind ++ [']']
  | .dict [] => "\x7b\x7d".data
  | .dict (kv :: kvs) => '\x7b' :: '\n' :: dumpsIKvs (ind + 2) (kv :: kvs) ++ '\n' :: spacesN ind ++ ['\x7d']

def dumpsIItems (ind : Nat) : List Data → List Char
  | [] => []
  | [x] => spacesN ind ++ dumpsI ind x
  | x :: y :: xs => spacesN ind ++ dumpsI ind x ++ ',' :: '\n' :: dumpsIItems ind (y :: xs)

def dumpsIKvs (ind : Nat) : List (List Char × Data) → List Char
  | [] => []
  | [kv] => spacesN ind ++ jsonStr kv.1 ++ ": ".data ++ dumpsI ind kv.2
  | kv :: kv2 :: rest =>
    spacesN ind ++ jsonStr kv.1 ++ ": ".data ++ dumpsI ind kv.2 ++ ',' :: '\n' :: dumpsIKvs ind (kv2 :: rest)
end

/-- Embeds `export_json` (src/app.py lines 138-149): `json.dumps(obj, indent=2)`. -/
def export_json (tree : List Entry) (files : List FileRecord) : List Char :=
  dumpsI 0 (exportJsonData tree files)

/-- Embeds `export_jsonl` (src/app.py lines 151-165): one default-separator
`json.dumps` line per entry, then one per file record. -/
def export_jsonl (tree : List Entry) (files : List FileRecord) : List Char :=
  joinNL (tree.map (fun e => dumpsC (.dict [("type".data, .str "structure".data),
                                            ("data".data, entryData e)])) ++
          files.map (fun f => dumpsC (.dict [("type".data, .str "content".data),
                                             ("data".data, fileRecData f)])))

/-- Embeds `'    ' * path.count(os.sep)`: repetitions of a padding string. -/
def repChars (n : Nat) (pad : List Char) : List Char := (List.replicate n pad).flatten

/-- Embeds `path.count(os.sep)` with `os.sep = '/'`. -/
def countSep (s : List Char) : Nat := (s.filter (fun c => c == '/')).length

/-- Embeds `export_txt` (src/app.py lines 125-136). -/
def export_txt (tree : List Entry) (files : List FileRecord) : List Char :=
  let parts :=
    (if tree.isEmpty then [] else
      "Directory Structure:".data ::
      tree.map (fun e => repChars (countSep e.path) "    ".data ++ e.name ++
        " (".data ++ e.hr_size ++ "): ".data ++ e.path)) ++
    (if files.isEmpty then [] else
      "\nFile Contents:".data ::
      files.map (fun f => "\nFile: ".data ++ f.path ++ '\n' :: f.content))
  let out := joinNL parts
  if out.isEmpty then "No content found".data else out

/-- Embeds `export_markdown` (src/app.py lines 180-192). -/
def export_markdown (tree : List Entry) (files : List FileRecord) : List Char :=
  let md :=
    (if tree.isEmpty then [] else
      "# Directory Structure".data ::
      tree.map (fun e => repChars (countSep e.path) "  ".data ++ "- **".data ++ e.name ++
        "** (".data ++ e.hr_size ++ "): `".data ++ e.path ++ "`".data)) ++
    (if files.isEmpty then [] else
      "\n# File Contents".data ::
      files.map (fun f =>
        let lang := if f.syn.isEmpty then "text".data else f.syn
        "\n## ".data ++ f.path ++ "\n```".data ++ lang ++ '\n' :: f.content ++ "\n```".data))
  let out := joinNL md
  if out.isEmpty then "No content found".data else out

/-- Does a csv field need quoting under `QUOTE_MINIMAL`? (it contains the
delimiter, the quote character, or a line-break character). -/
def csvNeedsQuote (delim : Char) (s : List Char) : Bool :=
  s.any (fun c => c == delim || c == '"' || c == '\r' || c == '\n')

/-- One csv field under `QUOTE_MINIMAL`: quoted with doubled inner quotes
when needed, verbatim otherwise. -/
def csvField (delim : Char) (s : List Char) : List Char :=
  if csvNeedsQuote delim s then
    '"' :: s.flatMap (fun c => if c == '"' then ['"', '"'] else [c]) ++ ['"']
  else s

/-- Join fields with the delimiter. -/
def joinD (d : Char) : List (List Char) → List Char
  | [] => []
  | [f] => f
  | f :: g :: fs => f ++ d :: joinD d (g :: fs)

/-- Embeds `csv.writer.writerow`: delimited fields and a `'\r\n'` terminator; a
lone empty field is quoted so the row stays distinguishable from an empty
row. -/
def csvRow (delim : Char) (fields : List (List Char)) : List Char :=
  (match fields with
   | [f] => if f.isEmpty then ['"', '"'] else csvField delim f
   | _ => joinD delim (fields.map (csvField delim))) ++ ['\r', '\n']

/-- The row of one tree entry (`str` applied to the numeric cells). -/
def entryRowFields (e : Entry) : List (List Char) :=
  [if e.is_dir then "DIR".data else "FILE".data, e.path, natToChars e.size, natToChars e.modified]

/-- The row of one extracted file: path and a 200-character excerpt. -/
def fileRowFields (f : FileRecord) : List (List Char) :=
  [f.path, if 200 < f.content.length then f.content.take 200 ++ "...".data else f.content]

/-- The row sequence `export_csv` / `export_tsv` both write (their bodies
are identical except for the `delimiter` handed to `csv.writer`). -/
def tabularRows (tree : List Entry) (files : List FileRecord) : List (List (List Char)) :=
  (["Type".data, "Path".data, "Size".data, "Modified".data] :: tree.map entryRowFields) ++
  (if files.isEmpty then []
   else [] :: ["File Path".data, "Content Excerpt".data] :: files.map fileRowFields)

/-- Embeds `export_csv` (src/app.py lines 194-210). -/
def export_csv (tree : List Entry) (files : List FileRecord) : List Char :=
  ((tabularRows tree files).map (csvRow ',')).flatten

/-- Embeds `export_tsv` (src/app.py lines 212-228). -/
def export_tsv (tree : List Entry) (files : List FileRecord) : List Char :=
  ((tabularRows tree files).map (csvRow '\t')).flatten

/-- Embeds `export_html` (src/app.py lines 230-244); content is embedded verbatim
inside `<pre>`, unescaped, exactly as the source does. -/
def export_html (tree : List Entry) (files : List FileRecord) : List Char :=
  let lines :=
    ["<html><head><meta charset=\"utf-8\"><title>File Inspector Report</title></head><body>".data,
     "<h1>Directory: ".data ++ (match tree with | [] => [] | e :: _ => e.name) ++ "</h1>".data] ++
    (if tree.isEmpty then [] else
      "<details open><summary>Structure</summary><pre>".data ::
      tree.map (fun e => e.path ++ " (".data ++ e.hr_size ++ ")".data) ++
      ["</pre></details>".data]) ++
    (if files.isEmpty then [] else
      "<details><summary>File Contents</summary>".data ::
      files.map (fun f => "<h2>".data ++ f.path ++ "</h2><pre>".data ++ f.content ++ "</pre>".data) ++
      ["</details>".data]) ++
    ["</body></html>".data]
  joinNL lines

/-- Scalar rendering for the modelled YAML emitter. The style choices of
PyYAML (plain / quoted / folded) are simplified to: plain for nonempty
strings of unproblematic ASCII characters, `''` for the empty string,
double-quoted with JSON-style escapes otherwise. No claim inspects YAML
text, only the serialized object (`exportYamlData`). -/
def yamlPlainOk (s : List Char) : Bool :=
  !s.isEmpty &&
  s.all (fun c => c.isAlphanum || c == '.' || c == '_' || c == '/' || c == ' ') &&
  !(pyIsSpace (s.headD 'x')) && !(pyIsSpace (s.getLastD 'x')) &&
  !(s == "true".data) && !(s == "false".data) && !(s == "null".data)

def yamlScalar : Data → List Char
  | .str s => if yamlPlainOk s then s else if s.isEmpty then [Char.ofNat 39, Char.ofNat 39] else jsonStr s
  | .int n => natToChars n
  | .bool b => if b then "true".data else "false".data
  | .list _ => "[]".data
  | .dict _ => "\x7b\x7d".data

mutual
/-- Block-style mapping body at indent `ind`, one `key: value` line per
pair, nested mappings indented two further, nested sequences indentless
(PyYAML's default). -/
def yamlMap (ind : Nat) : List (List Char × Data) → List Char
  | [] => []
  | (k, v) :: rest => spacesN ind ++ yamlKeyLine ind k v ++ yamlMap ind rest

def yamlKeyLine (ind : Nat) (k : List Char) (v : Data) : List Char :=
  match v with
  | .dict [] => k ++ ": \x7b\x7d\n".data
  | .dict (kv :: kvs) => k ++ ":\n".data ++ yamlMap (ind + 2) (kv :: kvs)
  | .list [] => k ++ ": []\n".data
  | .list (x :: xs) => k ++ ":\n".data ++ yamlSeq ind (x :: xs)
  | v => k ++ ": ".data ++ yamlScalar v ++ ['\n']

def yamlSeq (ind : Nat) : List Data → List Char
  | [] => []
  | item :: rest => spacesN ind ++ "- ".data ++ yamlSeqItem ind item ++ yamlSeq ind rest

def yamlSeqItem (ind : Nat) : Data → List Char
  | .dict [] => "\x7b\x7d\n".data
  | .dict ((k, v) :: kvs) => yamlKeyLine (ind + 2) k v ++ yamlMap (ind + 2) kvs
  | .list _ => "[]\n".data
  | v => yamlScalar v ++ ['\n']
end

/-- Embeds `export_yaml` (src/app.py lines 167-178): `yaml.dump(obj,
sort_keys=False, allow_unicode=True)` of the same object as `export_json`,
rendered by the modelled block emitter above. -/
def export_yaml (tree : List Entry) (files : List FileRecord) : List Char :=
  match exportYamlData tree files with
  | .dict kvs => yamlMap 0 kvs
  | v => yamlScalar v ++ ['\n']

/-- The `_FORMATS` registry (src/app.py lines 246-255): format name,
extension, exporter. -/
def FORMATS : List (List Char × List Char × (List Entry → List FileRecord → List Char)) :=
  [("TXT".data, "txt".data, export_txt),
   ("JSON".data, "json".data, export_json),
   ("JSONL".data, "jsonl".data, export_jsonl),
   ("YAML".data, "yaml".data, export_yaml),
   ("Markdown".data, "md".data, export_markdown),
   ("CSV".data, "csv".data, export_csv),
   ("TSV".data, "tsv".data, export_tsv),
   ("HTML".data, "html".data, export_html)]

/-- The registered format names (`fmt in _FORMATS` tests key membership). -/
def formatNames : List (List Char) := FORMATS.map (fun kv => kv.1)

/-- Embeds `_FORMATS[fmt]` as a lookup. -/
def lookupFormat (fmt : List Char) : Option (List Char × (List Entry → List FileRecord → List Char)) :=
  (FORMATS.find? (fun kv => kv.1 == fmt)).map (fun kv => kv.2)

/-- What one invocation of the orchestrator returns and does: the value
handed to the download widget (`str(out_path)` or `None`), the content
string shown to the user, and the file writes performed. -/
structure PSOut where
  download : Option (List Char)
  content : List Char
  writes : List (List Char × List Char)
deriving DecidableEq

/-- Embeds `pat` is a prefix of `s`. -/
def leadsWith : List Char → List Char → Bool
  | [], _ => true
  | _ :: _, [] => false
  | p :: ps, c :: cs => p == c && leadsWith ps cs

/-- Python's `pat in s` substring test. -/
def hasSub (pat s : List Char) : Bool :=
  match s with
  | [] => pat.isEmpty
  | _ :: rest => leadsWith pat s || hasSub pat rest

/-- Embeds `tempfile.gettempdir()` in the model. -/
def tempDirPath : List Char := "/tmp".data

/-- The pipeline of `process_and_save` once the root directory is resolved
(src/app.py lines 269-283): validate the directory, build the requested
tree / files, look up the exporter, serialize, write `<root-name>.<ext>`
to temporary storage and return the path together with the content. -/
def runPipeline (root : FS) (action fmt : List Char) : PSOut :=
  if !root.isDirFS then ⟨none, "Error: Invalid directory".data, []⟩
  else
    let tree := if hasSub "Tree".data action then build_tree root else []
    let files := if hasSub "Extract Code".data action then build_files root else []
    match lookupFormat fmt with
    | none => ⟨none, "Error: Unknown format ".data ++ fmt, []⟩
    | some (ext, exporter) =>
      let content := exporter tree files
      let outName := (if root.fname.isEmpty then "output".data else root.fname) ++ '.' :: ext
      let outPath := tempDirPath ++ '/' :: outName
      ⟨some outPath, content, [(outPath, content)]⟩

/-- Embeds `process_and_save` (src/app.py lines 257-286). `localResolved` is what
`Path(local_path).expanduser().resolve()` designates on disk (`none` when
nothing exists there); `zipUpload` is the temporary directory holding the
extracted archive (`none` when no archive was uploaded). The surrounding
`try/except` never fires in the model, whose filesystem operations are
total. -/
def process_and_save (source : List Char) (localResolved : Option FS)
    (zipUpload : Option FS) (action fmt : List Char) : PSOut :=
  if source == "Upload ZIP".data then
    match zipUpload with
    | none => ⟨none, "Error: no ZIP uploaded".data, []⟩
    | some z => runPipeline z action fmt
  else
    match localResolved with
    | none => ⟨none, "Error: Invalid directory".data, []⟩
    | some r => runPipeline r action fmt

/-- Association lookup among the keys of a serialized dict. -/
def lookupKv : List (List Char × Data) → List Char → Option Data
  | [], _ => none
  | (k0, v) :: rest, k => if k0 == k then some v else lookupKv rest k

/-- Key access on decoded data (`none` off a dict or for a missing key). -/
def dictGet : Data → List Char → Option Data
  | .dict kvs, k => lookupKv kvs k
  | _, _ => none

/-- Embeds `metadata.directory.<k>` of a decoded export. -/
def metaDirGet (d : Data) (k : List Char) : Option Data :=
  (dictGet d "metadata".data).bind
    (fun m => (dictGet m "directory".data).bind (fun dd => dictGet dd k))

/-- The claim "the two strings differ only in the delimiter character":
equal length and pointwise equal except where the first has `','` and the
second `'\t'`. -/
def onlyDelimDiffB : List Char → List Char → Bool
  | [], [] => true
  | a :: as, b :: bs => (a == b || (a == ',' && b == '\t')) && onlyDelimDiffB as bs
  | _, _ => false

/-- A character that triggers quoting in neither the CSV nor the TSV
writer and is not a delimiter of either. -/
def goodCsvChar (c : Char) : Bool :=
  !(c == ',' || c == '\t' || c == '"' || c == '\r' || c == '\n')

/-- A string of quote-free, delimiter-free characters. -/
def cleanChars (s : List Char) : Bool := s.all goodCsvChar

/-- Replace every comma by a tab. -/
def replDelim (s : List Char) : List Char := s.map (fun c => if c == ',' then '\t' else c)

mutual
/-- No node of the tree is named `"."` (true of every real filesystem;
`rglob` never reports such names). -/
def nodeNamesOk : FS → Bool
  | .file n _ => !(n == ['.'])
  | .dir n _ _ cs => !(n == ['.']) && nodesNamesOk cs

def nodesNamesOk : List FS → Bool
  | [] => true
  | c :: cs => nodeNamesOk c && nodesNamesOk cs
end

/-- The same file truncated to the 1024-byte prefix the classifier samples. -/
def truncPrefix (f : FileData) : FileData :=
  { f with content := f.content.take 1024 }

/-! ### Wrapping preserves the non-whitespace characters -/

/-- The visible characters of a chunk list, concatenated. -/
def vjoin (L : List (List Char)) : List Char := (L.map visible).flatten

theorem visible_append (a b : List Char) : visible (a ++ b) = visible a ++ visible b := by
  simp [visible, List.filter_append]

theorem vjoin_append (A B : List (List Char)) : vjoin (A ++ B) = vjoin A ++ vjoin B := by
  simp [vjoin]

theorem visible_flatten (L : List (List Char)) : visible L.flatten = vjoin L := by
  induction L with
  | nil => rfl
  | cons h t ih => simp [vjoin, List.flatten_cons, visible_append, ih]

theorem visible_ws : ∀ (l : List Char), isWsChunk l = true → visible l = [] := by
  intro l
  induction l with
  | nil => intro _; rfl
  | cons c t ih =>
    intro h
    simp only [isWsChunk, List.all_cons, Bool.and_eq_true] at h
    have hk : keepCh c = false := by simp [keepCh, h.1]
    have ht := ih h.2
    simp only [visible, List.filter_cons, hk] at ht ⊢
    simpa using ht

theorem takeGreedy_append (w : Nat) (l : List (List Char)) :
    ∀ acc, (takeGreedy w acc l).1 ++ (takeGreedy w acc l).2 = l := by
  induction l with
  | nil => intro acc; rfl
  | cons c rest ih =>
    intro acc
    by_cases h : acc + c.length ≤ w <;> simp [takeGreedy, h, ih]

theorem takeGreedy_fst_nil {w acc : Nat} {c0 : List Char} {cs0 : List (List Char)}
    (h : (takeGreedy w acc (c0 :: cs0)).1 = []) :
    w < acc + c0.length ∧ (takeGreedy w acc (c0 :: cs0)).2 = c0 :: cs0 := by
  by_cases hle : acc + c0.length ≤ w
  · simp [takeGreedy, hle] at h
  · exact ⟨Nat.lt_of_not_le hle, by simp [takeGreedy, hle]⟩

theorem handleLong_append (w : Nat) (pr : List (List Char) × List (List Char)) :
    (handleLong w pr).1 ++ (handleLong w pr).2 = pr.1 ++ pr.2 := by
  obtain ⟨a, r⟩ := pr
  cases r with
  | nil => rfl
  | cons r0 rs =>
    by_cases hc : (w < r0.length && a.isEmpty) = true
    · rw [Bool.and_eq_true] at hc
      have ha : a = [] := List.isEmpty_iff.mp hc.2
      have hlt : w < r0.length := of_decide_eq_true hc.1
      subst ha
      simp [handleLong, hlt]
    · simp only [handleLong, if_neg hc]

theorem handleLong_snd_le (w : Nat) (l : List (List Char)) :
    (handleLong w (takeGreedy w 0 l)).2.length ≤ l.length := by
  have happ := takeGreedy_append w l 0
  rcases hg : takeGreedy w 0 l with ⟨a, r⟩
  rw [hg] at happ
  have hlen : a.length + r.length = l.length := by
    simpa using congrArg List.length happ
  cases r with
  | nil => simp [handleLong]
  | cons r0 rs =>
    simp only [List.length_cons] at hlen
    by_cases hc : (w < r0.length && a.isEmpty) = true
    · simp only [handleLong, if_pos hc, List.length_cons]
      omega
    · simp only [handleLong, if_neg hc, List.length_cons]
      omega

theorem handleLong_snd_lt (w : Nat) (c0 : List Char) (cs0 : List (List Char)) :
    (handleLong w (takeGreedy w 0 (c0 :: cs0))).2.length ≤ cs0.length := by
  have happ := takeGreedy_append w (c0 :: cs0) 0
  rcases hg : takeGreedy w 0 (c0 :: cs0) with ⟨a, r⟩
  rw [hg] at happ
  cases a with
  | nil =>
    have hfst : (takeGreedy w 0 (c0 :: cs0)).1 = [] := by rw [hg]
    obtain ⟨hlt, hsnd⟩ := takeGreedy_fst_nil hfst
    rw [hg] at hsnd
    subst hsnd
    simp [handleLong, show w < c0.length by omega]
  | cons a0 as =>
    have hlen := congrArg List.length happ
    simp only [List.length_append, List.length_cons] at hlen
    cases r with
    | nil => simp [handleLong]
    | cons r0 rs =>
      simp only [handleLong]
      rw [if_neg (by simp : ¬ ((w < r0.length && (a0 :: as).isEmpty) = true))]
      simp only [List.length_cons] at hlen ⊢
      omega

theorem vjoin_dropTrailWs (cur : List (List Char)) : vjoin (dropTrailWs cur) = vjoin cur := by
  unfold dropTrailWs
  cases h : cur.getLast? with
  | none => rfl
  | some last =>
    by_cases hw : isWsChunk last = true
    · have hsplit : cur.dropLast ++ [last] = cur :=
        List.dropLast_append_getLast? last (Option.mem_def.mpr h)
      have hv : visible last = [] := visible_ws last hw
      have heq : vjoin cur = vjoin cur.dropLast := by
        conv_lhs => rw [← hsplit]
        rw [vjoin_append]
        simp [vjoin, hv]
      show vjoin (if isWsChunk last = true then cur.dropLast else cur) = vjoin cur
      rw [if_pos hw]
      exact heq.symm
    · show vjoin (if isWsChunk last = true then cur.dropLast else cur) = vjoin cur
      rw [if_neg hw]

theorem wrapGo_succ (w n : Nat) (b : Bool) (c0 : List Char) (cs0 : List (List Char)) :
    wrapGo w (n + 1) b (c0 :: cs0) =
      wrapStep w n b (if !b && isWsChunk c0 then cs0 else c0 :: cs0) := rfl

theorem wrapStep_visible (w n : Nat) (b : Bool) (chunks1 : List (List Char))
    (hfuel : (handleLong w (takeGreedy w 0 chunks1)).2.length ≤ n)
    (ih : ∀ (b' : Bool) (cs : List (List Char)), cs.length ≤ n →
      vjoin (wrapGo w n b' cs) = vjoin cs) :
    vjoin (wrapStep w n b chunks1) = vjoin chunks1 := by
  rw [wrapStep]
  set pr2 := handleLong w (takeGreedy w 0 chunks1) with hpr2
  set cur2 := dropTrailWs pr2.1 with hcur2
  have hrec : vjoin (wrapGo w n (b && cur2.isEmpty) pr2.2) = vjoin pr2.2 :=
    ih _ _ hfuel
  have hsplit : vjoin pr2.1 ++ vjoin pr2.2 = vjoin chunks1 := by
    rw [← vjoin_append, hpr2, handleLong_append, takeGreedy_append]
  by_cases hemp : cur2.isEmpty = true
  · rw [if_pos hemp, hrec, ← hsplit]
    have h1 : vjoin pr2.1 = [] := by
      rw [← vjoin_dropTrailWs pr2.1, ← hcur2, List.isEmpty_iff.mp hemp]
      rfl
    rw [h1]
    rfl
  · rw [if_neg hemp]
    show visible cur2.flatten ++ vjoin (wrapGo w n (b && cur2.isEmpty) pr2.2) = _
    rw [visible_flatten, hrec, hcur2, vjoin_dropTrailWs, hsplit]

theorem wrapGo_visible (w : Nat) :
    ∀ n (b : Bool) (chunks : List (List Char)), chunks.length ≤ n →
      vjoin (wrapGo w n b chunks) = vjoin chunks := by
  intro n
  induction n with
  | zero =>
    intro b chunks h
    have : chunks = [] := List.length_eq_zero.mp (Nat.le_zero.mp h)
    subst this
    rfl
  | succ n ih =>
    intro b chunks hlen
    cases chunks with
    | nil => rfl
    | cons c0 cs0 =>
      simp only [List.length_cons, Nat.succ_le_succ_iff] at hlen
      rw [wrapGo_succ]
      by_cases hdrop : (!b && isWsChunk c0) = true
      · rw [if_pos hdrop]
        have hws : isWsChunk c0 = true := ((Bool.and_eq_true _ _).mp hdrop).2
        rw [wrapStep_visible w n b cs0 (Nat.le_trans (handleLong_snd_le w cs0) hlen) ih]
        simp [vjoin, visible_ws c0 hws]
      · rw [if_neg hdrop]
        exact wrapStep_visible w n b (c0 :: cs0)
          (Nat.le_trans (handleLong_snd_lt w c0 cs0) hlen) ih

theorem chunkStep_flatten (c : Char) (L : List (List Char)) :
    (chunkStep c L).flatten = c :: L.flatten := by
  match L with
  | [] => rfl
  | [] :: rest => simp [chunkStep]
  | (d :: run) :: rest =>
    by_cases h : pyIsSpace c = pyIsSpace d <;> simp [chunkStep, h]

theorem toChunks_flatten (s : List Char) : (toChunks s).flatten = s := by
  induction s with
  | nil => rfl
  | cons c t ih =>
    show (chunkStep c (toChunks t)).flatten = c :: t
    rw [chunkStep_flatten, ih]

theorem visible_cons_aux {c : Char} {t : List Char} (h : keepCh c = false) :
    visible (c :: t) = visible t := by
  simp [visible, List.filter_cons, h]

theorem visible_replicate_space (n : Nat) : visible (List.replicate n ' ') = [] := by
  induction n with
  | zero => rfl
  | succ n ih =>
    rw [List.replicate_succ]
    have hk : keepCh ' ' = false := by simp [keepCh, pyIsSpace]
    rw [visible_cons_aux hk]
    exact ih

theorem visible_cons (c : Char) (t : List Char) :
    visible (c :: t) = (if keepCh c then [c] else []) ++ visible t := by
  by_cases h : keepCh c = true <;> simp [visible, List.filter_cons, h]

theorem visible_expandtabs (ts : Nat) :
    ∀ (s : List Char) (col : Nat), visible (expandtabsGo ts s col) = visible s := by
  intro s
  induction s with
  | nil => intro col; rfl
  | cons c t ih =>
    intro col
    by_cases ht : c = '\t'
    · subst ht
      by_cases hz : ts = 0
      · rw [show expandtabsGo ts ('\t' :: t) col = expandtabsGo ts t col by
          simp [expandtabsGo, hz]]
        rw [ih, visible_cons]
        simp [keepCh, pyIsSpace]
      · rw [show expandtabsGo ts ('\t' :: t) col =
            List.replicate (ts - col % ts) ' ' ++ expandtabsGo ts t (col + (ts - col % ts)) by
          simp [expandtabsGo, hz]]
        rw [visible_append, visible_replicate_space, ih, visible_cons]
        simp [keepCh, pyIsSpace]
    · by_cases hnr : (c = '\n' || c = '\r') = true
      · rw [show expandtabsGo ts (c :: t) col = c :: expandtabsGo ts t 0 by
          simp [expandtabsGo, ht, hnr]]
        rw [visible_cons, visible_cons, ih]
      · rw [show expandtabsGo ts (c :: t) col = c :: expandtabsGo ts t (col + 1) by
          simp [expandtabsGo, ht, hnr]]
        rw [visible_cons, visible_cons, ih]

theorem visible_collapse (s : List Char) :
    visible (s.map (fun c => if pyIsSpace c then ' ' else c)) = visible s := by
  induction s with
  | nil => rfl
  | cons c t ih =>
    by_cases h : pyIsSpace c = true
    · simp only [List.map_cons, if_pos h]
      rw [visible_cons, visible_cons, ih]
      have h1 : keepCh ' ' = false := by simp [keepCh, pyIsSpace]
      have h2 : keepCh c = false := by simp [keepCh, h]
      rw [h1, h2]
      rfl
    · simp only [List.map_cons, if_neg h]
      rw [visible_cons, visible_cons, ih]

theorem visible_munge (s : List Char) : visible (munge s) = visible s := by
  rw [munge, visible_collapse, visible_expandtabs]

theorem vjoin_wrapLine (l : List Char) : vjoin (wrapLine l) = visible l := by
  show vjoin (wrapGo 120 (toChunks (munge l)).length true (toChunks (munge l))) = visible l
  rw [wrapGo_visible 120 (toChunks (munge l)).length true (toChunks (munge l)) (Nat.le_refl _),
    ← visible_flatten, toChunks_flatten, visible_munge]

theorem visible_joinNL : ∀ (L : List (List Char)), visible (joinNL L) = vjoin L := by
  intro L
  induction L with
  | nil => rfl
  | cons l ls ih =>
    cases ls with
    | nil => simp [joinNL, vjoin]
    | cons l2 ls2 =>
      show visible (l ++ '\n' :: joinNL (l2 :: ls2)) = vjoin (l :: l2 :: ls2)
      rw [visible_append, visible_cons]
      have hk : keepCh '\n' = false := by simp [keepCh, pyIsSpace]
      rw [hk]
      simp only [Bool.false_eq_true, if_false, List.nil_append]
      rw [ih]
      rfl

theorem splitlinesGo_vjoin : ∀ (s acc : List Char),
    vjoin (splitlinesGo s acc) = visible acc.reverse ++ visible s := by
  intro s
  induction s with
  | nil =>
    intro acc
    cases acc with
    | nil => rfl
    | cons a t => simp [splitlinesGo, vjoin, visible]
  | cons c rest ih =>
    intro acc
    by_cases hc : c = '\n'
    · subst hc
      rw [show splitlinesGo ('\n' :: rest) acc = acc.reverse :: splitlinesGo rest [] by
        simp [splitlinesGo]]
      have hv : vjoin (acc.reverse :: splitlinesGo rest []) =
          visible acc.reverse ++ vjoin (splitlinesGo rest []) := rfl
      rw [hv, ih, visible_cons]
      have hk : keepCh '\n' = false := by simp [keepCh, pyIsSpace]
      simp [hk, visible]
    · rw [show splitlinesGo (c :: rest) acc = splitlinesGo rest (c :: acc) by
        simp [splitlinesGo, hc]]
      rw [ih, visible_cons]
      simp only [List.reverse_cons, visible_append]
      by_cases hk : keepCh c = true <;> simp [hk, visible, List.filter_cons]

theorem vjoin_splitlines (s : List Char) : vjoin (splitlines s) = visible s := by
  rw [splitlines, splitlinesGo_vjoin]
  rfl

theorem vjoin_flatMap (L : List (List Char)) (f : List Char → List (List Char)) :
    vjoin (L.flatMap f) = (L.map (fun x => vjoin (f x))).flatten := by
  induction L with
  | nil => rfl
  | cons l ls ih => simp only [List.flatMap_cons, vjoin_append, ih, List.map_cons,
      List.flatten_cons]

theorem vjoin_perLine (line : List Char) :
    vjoin (if 120 < line.length then wrapLine line else [line]) = visible line := by
  by_cases h : 120 < line.length
  · rw [if_pos h, vjoin_wrapLine]
  · rw [if_neg h]
    simp [vjoin]

/-- C1, amended part. The original claim fails (whitespace at wrap points
is dropped, see the counterexample); what holds is losslessness for the
non-whitespace character content. -/
theorem claim_c1_amended (C : List Char) :
    visible (normalizeContent C) = visible C := by
  rw [normalizeContent, visible_joinNL, vjoin_flatMap]
  have : (splitlines C).map (fun line => vjoin (if 120 < line.length then wrapLine line else [line]))
      = (splitlines C).map visible := by
    apply List.map_congr_left
    intro l _
    exact vjoin_perLine l
  rw [this, ← vjoin_splitlines]
  rfl

/-- C1, counterexample to the claim as stated: a 121-space line is erased
entirely by the normalization (`textwrap.wrap` of an all-whitespace line
returns no lines), so the unwrapped normalized text differs from the
unwrapped original — character content is lost, not merely re-broken. -/
theorem claim_c1_counterexample :
    ¬ (unwrapNl (normalizeContent (List.replicate 121 ' ')) =
       unwrapNl (List.replicate 121 ' ')) := by decide

/-- C2, counterexample to the claim as stated: a 300-character single-line
file whose line is one unbreakable word is returned as a single 300-char
line (`break_long_words=False`), not as three lines of 120+120+60. -/
theorem claim_c2_counterexample :
    ¬ ((splitlines (normalizeContent (List.replicate 300 'a'))).map List.length
        = [120, 120, 60]) := by decide

/-- C2, amended: for a 300-character single-line content that wraps on
word boundaries (two 120-character words and one 58-character word
separated by single spaces), the extractor produces exactly three lines of
120, 120 and 58 characters, each an intact word — the separator spaces are
consumed at the wrap points, so 120+120+60 is unachievable from 300
characters. -/
theorem claim_c2_amended :
    (List.replicate 120 'a' ++ ' ' :: List.replicate 120 'b' ++ ' ' :: List.replicate 58 'c').length
        = 300 ∧
    (splitlines (List.replicate 120 'a' ++ ' ' :: List.replicate 120 'b' ++ ' ' :: List.replicate 58 'c')).length
        = 1 ∧
    normalizeContent (List.replicate 120 'a' ++ ' ' :: List.replicate 120 'b' ++ ' ' :: List.replicate 58 'c')
        = List.replicate 120 'a' ++ '\n' :: List.replicate 120 'b' ++ '\n' :: List.replicate 58 'c' ∧
    (splitlines (normalizeContent (List.replicate 120 'a' ++ ' ' :: List.replicate 120 'b' ++ ' ' :: List.replicate 58 'c'))).map List.length
        = [120, 120, 58] := by
  refine ⟨by decide, by decide, by decide, by decide⟩

/-- C5: the classifier returns false exactly when the read fails or the
sampled 1024-byte prefix contains a null byte, true otherwise, and its
verdict depends only on that prefix; a failed read yields `false` rather
than an exception (totality of the embedded function), and it has no side
effects (it is a pure function of the file state). -/
theorem claim_c5 (f : FileData) :
    is_text_file f = (f.readable && !((f.content.take 1024).contains '\x00')) ∧
    is_text_file f = is_text_file (truncPrefix f) := by
  constructor
  · cases hr : f.readable <;> simp [is_text_file, fRead, hr]
  · cases hr : f.readable <;>
      simp [is_text_file, fRead, truncPrefix, hr, List.take_take]

/-- C7: the object `export_json` serializes and the object `export_yaml`
serializes are one and the same for every input, so the two exports decode
to structurally equivalent data (the serializers are assumed faithful for
this plain str/int/bool/list/dict data, which a JSON or YAML round-trip
preserves). -/
theorem claim_c7 (tree : List Entry) (files : List FileRecord) :
    exportJsonData tree files = exportYamlData tree files := rfl

/-- C8: in the decoded export, `metadata.directory.directory_count` is the
number of `is_dir` entries of the structure list (root included), and
`metadata.directory.name` is the first (root) entry's name — for a built
tree, the root directory's name (`"root_directory"` for a nameless root) —
or the empty string when the tree is empty. -/
theorem claim_c8 :
    (∀ (tree : List Entry) (files : List FileRecord),
      metaDirGet (exportJsonData tree files) "directory_count".data
          = some (.int (tree.countP (fun t => t.is_dir))) ∧
      metaDirGet (exportJsonData tree files) "name".data
          = some (.str (match tree with | [] => [] | e :: _ => e.name))) ∧
    (∀ (root : FS) (files : List FileRecord),
      metaDirGet (exportJsonData (build_tree root) files) "name".data
          = some (.str (if root.fname.isEmpty then "root_directory".data else root.fname))) := by
  exact ⟨fun tree files => ⟨rfl, rfl⟩, fun root files => rfl⟩

/-- C10: `metadata.directory.file_count` equals the length of the `files`
argument, not the number of FILE entries of the tree; a tree-only
invocation passes `files = []`, so the count is 0 even when the tree
contains FILE entries (witnessed by a one-file directory). -/
theorem claim_c10 :
    (∀ (tree : List Entry) (files : List FileRecord),
      metaDirGet (exportJsonData tree files) "file_count".data
          = some (.int files.length)) ∧
    (∀ root : FS,
      metaDirGet (exportJsonData (build_tree root) []) "file_count".data
          = some (.int 0)) ∧
    ((build_tree (FS.dir "proj".data 0 4096
        [FS.file "a.txt".data ⟨"hi".data, true, 1⟩])).countP (fun e => !e.is_dir) = 1 ∧
      metaDirGet (exportJsonData (build_tree (FS.dir "proj".data 0 4096
        [FS.file "a.txt".data ⟨"hi".data, true, 1⟩])) []) "file_count".data
          = some (.int 0)) := by
  exact ⟨fun tree files => rfl, fun root => rfl, by decide, rfl⟩

theorem joinPath_ne_dot (pfx n : List Char) (hn : (n == ['.']) = false) :
    joinPath pfx n ≠ ['.'] := by
  rw [joinPath]
  cases pfx with
  | nil =>
    simp only [List.isEmpty_nil, if_true]
    intro hc
    rw [hc] at hn
    simp at hn
  | cons p ps =>
    simp only [List.isEmpty_cons, if_false]
    intro hc
    have := congrArg List.length hc
    simp [List.length_append] at this

mutual
theorem walkNode_no_dot (pfx : List Char) (t : FS) (h : nodeNamesOk t = true) :
    ∀ e ∈ walkNode pfx t, e.path ≠ ['.'] := by
  cases t with
  | file n fd =>
    intro e he
    rw [walkNode, List.mem_singleton] at he
    subst he
    exact joinPath_ne_dot pfx n (by simpa [nodeNamesOk] using h)
  | dir n m ds cs =>
    intro e he
    rw [walkNode, List.mem_cons] at he
    rw [nodeNamesOk, Bool.and_eq_true] at h
    rcases he with he | he
    · subst he
      exact joinPath_ne_dot pfx n (by simpa using h.1)
    · exact walkNodes_no_dot (joinPath pfx n) cs h.2 e he

theorem walkNodes_no_dot (pfx : List Char) (ns : List FS) (h : nodesNamesOk ns = true) :
    ∀ e ∈ walkNodes pfx ns, e.path ≠ ['.'] := by
  cases ns with
  | nil => intro e he; simp [walkNodes] at he
  | cons t ts =>
    intro e he
    rw [walkNodes, List.mem_append] at he
    rw [nodesNamesOk, Bool.and_eq_true] at h
    rcases he with he | he
    · exact walkNode_no_dot pfx t h.1 e he
    · exact walkNodes_no_dot pfx ts h.2 e he
end

/-- The non-root part of `build_tree`'s output. -/
theorem build_tree_tail_no_dot (root : FS) (h : nodeNamesOk root = true) :
    ∀ e ∈ (match root with
            | .file _ _ => ([] : List Entry)
            | .dir _ _ _ cs => walkNodes [] cs), e.path ≠ ['.'] := by
  cases root with
  | file n fd => intro e he; simp at he
  | dir n m ds cs =>
    rw [nodeNamesOk, Bool.and_eq_true] at h
    exact walkNodes_no_dot [] cs h.2

/-- C4: `build_tree` returns exactly one entry whose path is `"."`, and
that entry has size 0 and `is_dir` true, for every directory whose nodes
carry legal names (no node named `"."`, as on a real filesystem). -/
theorem claim_c4 (root : FS) (h : nodeNamesOk root = true) :
    ((build_tree root).filter (fun e => e.path == ['.'])).length = 1 ∧
    ∀ e ∈ build_tree root, e.path = ['.'] → e.size = 0 ∧ e.is_dir = true := by
  have htail := build_tree_tail_no_dot root h
  constructor
  · rw [build_tree.eq_def, List.filter_cons]
    have hroot : ((rootEntry root).path == ['.']) = true := by rfl
    rw [if_pos hroot]
    have hnil : (List.filter (fun e => e.path == ['.'])
        (match root with
         | .file _ _ => ([] : List Entry)
         | .dir _ _ _ cs => walkNodes [] cs)) = [] := by
      apply List.filter_eq_nil_iff.mpr
      intro e he
      simpa using htail e he
    rw [hnil]
    rfl
  · intro e he hdot
    rw [build_tree.eq_def, List.mem_cons] at he
    rcases he with he | he
    · subst he
      exact ⟨rfl, rfl⟩
    · exact absurd hdot (htail e he)

/-- C4 witness: a concrete two-level directory. -/
theorem claim_c4_witness :
    nodeNamesOk (FS.dir "proj".data 9 4096
      [FS.file "a.txt".data ⟨"hello".data, true, 3⟩,
       FS.dir "sub".data 8 4096 [FS.file "b.py".data ⟨"x = 1".data, true, 4⟩]]) = true ∧
    (((build_tree (FS.dir "proj".data 9 4096
        [FS.file "a.txt".data ⟨"hello".data, true, 3⟩,
         FS.dir "sub".data 8 4096 [FS.file "b.py".data ⟨"x = 1".data, true, 4⟩]])).filter
          (fun e => e.path == ['.'])).length = 1 ∧
      ∀ e ∈ build_tree (FS.dir "proj".data 9 4096
        [FS.file "a.txt".data ⟨"hello".data, true, 3⟩,
         FS.dir "sub".data 8 4096 [FS.file "b.py".data ⟨"x = 1".data, true, 4⟩]]),
        e.path = ['.'] → e.size = 0 ∧ e.is_dir = true) :=
  ⟨by decide, claim_c4 _ (by decide)⟩

theorem is_text_readable {f : FileData} (h : is_text_file f = true) :
    f.readable = true := by
  cases hr : f.readable with
  | true => rfl
  | false => simp [is_text_file, fRead, hr] at h

/-- C6: `build_files` produces exactly one record per classifier-accepted
text file and none for any other file — in particular no record for a
binary or unreadable file. -/
theorem claim_c6 (root : FS) :
    build_files root
      = ((allFiles root).filter (fun pf => is_text_file pf.2)).map mkRecord := by
  rw [build_files]
  induction allFiles root with
  | nil => rfl
  | cons pf rest ih =>
    by_cases h : is_text_file pf.2 = true
    · have hr : pf.2.readable = true := is_text_readable h
      have hhead : read_and_clean pf.1 pf.2 = some (normalizeContent pf.2.content) := by
        simp [read_and_clean, h, hr]
      simp only [List.filterMap_cons, hhead, Option.map_some']
      rw [List.filter_cons, if_pos (by simpa using h), List.map_cons, ih]
      rfl
    · have h' : is_text_file pf.2 = false := Bool.not_eq_true _ |>.mp h
      have hhead : read_and_clean pf.1 pf.2 = none := by
        simp [read_and_clean, h']
      simp only [List.filterMap_cons, hhead, Option.map_none']
      rw [List.filter_cons, if_neg (by simp [h']), ih]

theorem goodCsvChar_digit (d : Nat) (hd : d < 10) : goodCsvChar (digitChar d) = true := by
  interval_cases d <;> decide

theorem natToCharsGo_clean (n : Nat) :
    ∀ acc, cleanChars acc = true → cleanChars (natToCharsGo n acc) = true := by
  induction n using Nat.strong_induction_on with
  | _ n ih =>
    intro acc hacc
    by_cases h : n < 10
    · rw [natToCharsGo, dif_pos h]
      simp only [cleanChars, List.all_cons, Bool.and_eq_true]
      exact ⟨goodCsvChar_digit n h, hacc⟩
    · rw [natToCharsGo, dif_neg h]
      apply ih (n / 10) (Nat.div_lt_self (by omega) (by decide))
      simp only [cleanChars, List.all_cons, Bool.and_eq_true]
      exact ⟨goodCsvChar_digit (n % 10) (Nat.mod_lt _ (by decide)), hacc⟩

theorem natToChars_clean (n : Nat) : cleanChars (natToChars n) = true :=
  natToCharsGo_clean n [] rfl

theorem cleanChars_append {a b : List Char} (ha : cleanChars a = true)
    (hb : cleanChars b = true) : cleanChars (a ++ b) = true := by
  simp only [cleanChars, List.all_append, Bool.and_eq_true]
  exact ⟨ha, hb⟩

theorem cleanChars_take {s : List Char} (h : cleanChars s = true) (n : Nat) :
    cleanChars (s.take n) = true := by
  simp only [cleanChars, List.all_eq_true] at h ⊢
  exact fun c hc => h c (List.take_subset n s hc)

theorem replDelim_append (a b : List Char) :
    replDelim (a ++ b) = replDelim a ++ replDelim b := by
  simp [replDelim]

theorem replDelim_clean {s : List Char} (h : cleanChars s = true) : replDelim s = s := by
  induction s with
  | nil => rfl
  | cons c t ih =>
    simp only [cleanChars, List.all_cons, Bool.and_eq_true] at h
    have hc : (c == ',') = false := by
      rcases h with ⟨hg, _⟩
      rw [goodCsvChar] at hg
      simp only [Bool.not_eq_true', Bool.or_eq_false_iff] at hg
      exact hg.1.1.1.1
    simp only [replDelim, List.map_cons, hc, Bool.false_eq_true, if_false]
    have := ih h.2
    rw [replDelim] at this
    rw [this]

theorem csvNeedsQuote_clean {δ : Char} (hδ : δ = ',' ∨ δ = '\t') {s : List Char}
    (h : cleanChars s = true) : csvNeedsQuote δ s = false := by
  rw [csvNeedsQuote]
  simp only [cleanChars, List.all_eq_true] at h
  simp only [List.any_eq_false]
  intro c hc
  have hg := h c hc
  rw [goodCsvChar] at hg
  simp only [Bool.not_eq_true', Bool.or_eq_false_iff] at hg
  obtain ⟨⟨⟨⟨h1, h2⟩, h3⟩, h4⟩, h5⟩ := hg
  rcases hδ with rfl | rfl <;> simp [h1, h2, h3, h4, h5]

theorem csvField_clean {δ : Char} (hδ : δ = ',' ∨ δ = '\t') {s : List Char}
    (h : cleanChars s = true) : csvField δ s = s := by
  rw [csvField, if_neg]
  rw [csvNeedsQuote_clean hδ h]
  simp

theorem joinD_clean : ∀ (fields : List (List Char)),
    (∀ f ∈ fields, cleanChars f = true) →
    joinD '\t' fields = replDelim (joinD ',' fields) := by
  intro fields
  induction fields with
  | nil => intro _; rfl
  | cons f fs ih =>
    intro h
    cases fs with
    | nil =>
      show f = replDelim f
      exact (replDelim_clean (h f (by simp))).symm
    | cons g gs =>
      show f ++ '\t' :: joinD '\t' (g :: gs) = replDelim (f ++ ',' :: joinD ',' (g :: gs))
      rw [replDelim_append]
      rw [replDelim_clean (h f (by simp))]
      have : replDelim (',' :: joinD ',' (g :: gs)) = '\t' :: replDelim (joinD ',' (g :: gs)) := by
        simp [replDelim]
      rw [this, ← ih (fun x hx => h x (by simp [hx]))]

theorem csvRow_clean (fields : List (List Char))
    (h : ∀ f ∈ fields, cleanChars f = true) :
    csvRow '\t' fields = replDelim (csvRow ',' fields) := by
  cases fields with
  | nil => rfl
  | cons f fs =>
    cases fs with
    | nil =>
      show (if f.isEmpty then ['"', '"'] else csvField '\t' f) ++ ['\r', '\n']
          = replDelim ((if f.isEmpty then ['"', '"'] else csvField ',' f) ++ ['\r', '\n'])
      by_cases he : f.isEmpty = true
      · rw [if_pos he, if_pos he]
        rfl
      · rw [if_neg he, if_neg he]
        rw [csvField_clean (Or.inr rfl) (h f (by simp)),
          csvField_clean (Or.inl rfl) (h f (by simp))]
        rw [replDelim_append, replDelim_clean (h f (by simp))]
        rfl
    | cons g gs =>
      show joinD '\t' (List.map (csvField '\t') (f :: g :: gs)) ++ ['\r', '\n']
          = replDelim (joinD ',' (List.map (csvField ',') (f :: g :: gs)) ++ ['\r', '\n'])
      have hmap : ∀ (δ : Char), (δ = ',' ∨ δ = '\t') →
          List.map (csvField δ) (f :: g :: gs) = f :: g :: gs := by
        intro δ hδ
        have hm : List.map (csvField δ) (f :: g :: gs) = List.map id (f :: g :: gs) := by
          apply List.map_congr_left
          intro a ha
          exact csvField_clean hδ (h a ha)
        rw [hm, List.map_id]
      rw [hmap ',' (Or.inl rfl), hmap '\t' (Or.inr rfl)]
      rw [replDelim_append, joinD_clean (f :: g :: gs) h]
      rfl

theorem tabularRows_clean (tree : List Entry) (files : List FileRecord)
    (htree : ∀ e ∈ tree, cleanChars e.path = true)
    (hfiles : ∀ f ∈ files, cleanChars f.path = true ∧ cleanChars f.content = true) :
    ∀ row ∈ tabularRows tree files, ∀ f ∈ row, cleanChars f = true := by
  intro row hrow
  rw [tabularRows, List.mem_append, List.mem_cons] at hrow
  rcases hrow with (hrow | hrow) | hrow
  · subst hrow
    intro f hf
    simp only [List.mem_cons, List.not_mem_nil, or_false] at hf
    rcases hf with rfl | rfl | rfl | rfl <;> decide
  · rw [List.mem_map] at hrow
    obtain ⟨e, he, rfl⟩ := hrow
    intro f hf
    rw [entryRowFields] at hf
    simp only [List.mem_cons, List.not_mem_nil, or_false] at hf
    rcases hf with rfl | rfl | rfl | rfl
    · cases e.is_dir <;> decide
    · exact htree e he
    · exact natToChars_clean e.size
    · exact natToChars_clean e.modified
  · by_cases hfe : files.isEmpty = true
    · rw [if_pos hfe] at hrow
      simp at hrow
    · rw [if_neg hfe, List.mem_cons, List.mem_cons] at hrow
      rcases hrow with rfl | rfl | hrow
      · intro f hf
        simp at hf
      · intro f hf
        simp only [List.mem_cons, List.not_mem_nil, or_false] at hf
        rcases hf with rfl | rfl <;> decide
      · rw [List.mem_map] at hrow
        obtain ⟨fr, hfr, rfl⟩ := hrow
        intro f hf
        rw [fileRowFields] at hf
        simp only [List.mem_cons, List.not_mem_nil, or_false] at hf
        rcases hf with rfl | rfl
        · exact (hfiles fr hfr).1
        · by_cases hlen : 200 < fr.content.length
          · rw [if_pos hlen]
            exact cleanChars_append (cleanChars_take (hfiles fr hfr).2 200) (by decide)
          · rw [if_neg hlen]
            exact (hfiles fr hfr).2

theorem rowsOut_clean : ∀ (rows : List (List (List Char))),
    (∀ row ∈ rows, ∀ f ∈ row, cleanChars f = true) →
    (rows.map (csvRow '\t')).flatten = replDelim ((rows.map (csvRow ',')).flatten) := by
  intro rows
  induction rows with
  | nil => intro _; rfl
  | cons r rs ih =>
    intro h
    simp only [List.map_cons, List.flatten_cons, replDelim_append]
    rw [csvRow_clean r (h r (by simp)), ih (fun row hrow => h row (by simp [hrow]))]

/-- C3, amended: the CSV and TSV exports are identical up to replacing the
delimiter comma by a tab whenever no emitted field contains a delimiter,
quote or line-break character (`QUOTE_MINIMAL` then quotes in neither
format); with such a field the two outputs differ structurally, because
the CSV writer quotes it and the TSV writer does not (see the
counterexample). -/
theorem claim_c3_amended (tree : List Entry) (files : List FileRecord)
    (htree : ∀ e ∈ tree, cleanChars e.path = true)
    (hfiles : ∀ f ∈ files, cleanChars f.path = true ∧ cleanChars f.content = true) :
    export_tsv tree files = replDelim (export_csv tree files) := by
  rw [export_csv, export_tsv]
  exact rowsOut_clean (tabularRows tree files) (tabularRows_clean tree files htree hfiles)

/-- C3, counterexample to the claim as stated: one extracted file whose
content contains a comma. The CSV writer quotes the excerpt field, the TSV
writer does not, so the outputs differ in more than the delimiter (they
even have different lengths). -/
theorem claim_c3_counterexample :
    onlyDelimDiffB
      (export_csv [] [⟨"f".data, "a,b".data, []⟩])
      (export_tsv [] [⟨"f".data, "a,b".data, []⟩]) = false := by
  decide

/-- C3 witness: a comma-free tree and file collection, where the amended
equality holds. -/
theorem claim_c3_amended_witness :
    (∀ e ∈ [(⟨"a.py".data, false, "a.py".data, 8, "8.0B".data, 7⟩ : Entry)],
      cleanChars e.path = true) ∧
    (∀ f ∈ [(⟨"a.py".data, "print(1)".data, "python".data⟩ : FileRecord)],
      cleanChars f.path = true ∧ cleanChars f.content = true) ∧
    export_tsv [⟨"a.py".data, false, "a.py".data, 8, "8.0B".data, 7⟩]
        [⟨"a.py".data, "print(1)".data, "python".data⟩]
      = replDelim (export_csv [⟨"a.py".data, false, "a.py".data, 8, "8.0B".data, 7⟩]
        [⟨"a.py".data, "print(1)".data, "python".data⟩]) :=
  ⟨by decide, by decide, claim_c3_amended _ _ (by decide) (by decide)⟩

theorem lookupFormat_none {fmt : List Char} (h : ¬ fmt ∈ formatNames) :
    lookupFormat fmt = none := by
  rw [lookupFormat, Option.map_eq_none']
  rw [List.find?_eq_none]
  intro kv hkv
  simp only [beq_iff_eq]
  intro heq
  exact h (by rw [formatNames, List.mem_map]; exact ⟨kv, hkv, heq⟩)

theorem runPipeline_unknown (root : FS) (action fmt : List Char)
    (h : lookupFormat fmt = none) :
    (runPipeline root action fmt).download = none ∧
    (runPipeline root action fmt).writes = [] ∧
    leadsWith "Error".data (runPipeline root action fmt).content = true := by
  rw [runPipeline]
  by_cases hd : (!root.isDirFS) = true
  · rw [if_pos hd]
    exact ⟨rfl, rfl, rfl⟩
  · rw [if_neg hd, h]
    exact ⟨rfl, rfl, rfl⟩

/-- C9: invoked with a format name outside the eight registered ones, the
orchestrator returns an error result — no download handle, an error
string — and performs no file write; this holds in every input
configuration (ZIP or local path, present or not). -/
theorem claim_c9 (source : List Char) (localResolved zipUpload : Option FS)
    (action fmt : List Char) (h : ¬ fmt ∈ formatNames) :
    (process_and_save source localResolved zipUpload action fmt).download = none ∧
    (process_and_save source localResolved zipUpload action fmt).writes = [] ∧
    leadsWith "Error".data
      (process_and_save source localResolved zipUpload action fmt).content = true := by
  have hlook := lookupFormat_none h
  rw [process_and_save.eq_def]
  by_cases hs : (source == "Upload ZIP".data) = true
  · rw [if_pos hs]
    cases zipUpload with
    | none => exact ⟨rfl, rfl, rfl⟩
    | some z => exact runPipeline_unknown z action fmt hlook
  · rw [if_neg hs]
    cases localResolved with
    | none => exact ⟨rfl, rfl, rfl⟩
    | some r => exact runPipeline_unknown r action fmt hlook

/-- C9 witness: requesting the unsupported format `"PDF"` on a valid local
directory yields an error result and no write. -/
theorem claim_c9_witness :
    (¬ "PDF".data ∈ formatNames) ∧
    ((process_and_save "Local Path".data
        (some (FS.dir "proj".data 9 4096 [FS.file "a.txt".data ⟨"hello".data, true, 3⟩]))
        none "Display Tree + Extract Code".data "PDF".data).download = none ∧
      (process_and_save "Local Path".data
        (some (FS.dir "proj".data 9 4096 [FS.file "a.txt".data ⟨"hello".data, true, 3⟩]))
        none "Display Tree + Extract Code".data "PDF".data).writes = [] ∧
      leadsWith "Error".data
        (process_and_save "Local Path".data
          (some (FS.dir "proj".data 9 4096 [FS.file "a.txt".data ⟨"hello".data, true, 3⟩]))
          none "Display Tree + Extract Code".data "PDF".data).content = true) :=
  ⟨by decide, claim_c9 _ _ _ _ _ (by decide)⟩
